import Mathlib

/-!
Shallow embedding of the context model and reporting logic of
`email_agent/main.py` (an LLM-driven email triage demo).  Python
`datetime` values are modelled as integer timestamps in seconds;
`timedelta(days=14)` is `14 * 86400` seconds and `timedelta.days` is floor
division by `86400`.  Python dicts (which preserve insertion order) are
modelled as association lists that update in place and append new keys at
the end.  The in-place mutation of the Python functions is modelled by
explicit state passing: each tool takes an `EmailAgentContext` and returns
the new context together with the returned string.
-/

namespace EmailAgent

/-- Status enumeration of `OutreachContact.status`
(`Literal["initial_sent", "follow_up_1_sent", "follow_up_2_sent", "replied", "unresponsive"]`). -/
inductive Status where
  | initial_sent
  | follow_up_1_sent
  | follow_up_2_sent
  | replied
  | unresponsive
deriving DecidableEq

/-- The literal string value of a status, as it appears in the Python `Literal` type. -/
def statusKey : Status → String
  | Status.initial_sent => "initial_sent"
  | Status.follow_up_1_sent => "follow_up_1_sent"
  | Status.follow_up_2_sent => "follow_up_2_sent"
  | Status.replied => "replied"
  | Status.unresponsive => "unresponsive"

/-- Evaluation of `status.replace('_', ' ').title()` on each of the five
possible status values (main.py lines 227 and 233). -/
def statusTitle : Status → String
  | Status.initial_sent => "Initial Sent"
  | Status.follow_up_1_sent => "Follow Up 1 Sent"
  | Status.follow_up_2_sent => "Follow Up 2 Sent"
  | Status.replied => "Replied"
  | Status.unresponsive => "Unresponsive"

/-- `OutreachContact` pydantic model (main.py lines 35-39). -/
structure OutreachContact where
  name : String
  email : String
  status : Status
  last_contact_date : Int
deriving DecidableEq

/-- `MedicalNewsSummary` pydantic model (main.py lines 41-45). -/
structure MedicalNewsSummary where
  source_email_subject : String
  summary : String
  trend : String
  date : Int
deriving DecidableEq

/-- `EmailAgentContext` pydantic model (main.py lines 47-52). -/
structure EmailAgentContext where
  outreach_list : List OutreachContact := []
  medical_summaries : List MedicalNewsSummary := []
  weekly_report : List String := []
  bi_weekly_report : List String := []
deriving DecidableEq

/-- The confirmation string of the update branch of
`update_outreach_contact_in_context` (main.py line 191). -/
def updatedMsg (name : String) (status : Status) : String :=
  "Successfully updated contact " ++ name ++ " with status " ++ statusKey status ++ "."

/-- The confirmation string of the append branch of
`update_outreach_contact_in_context` (main.py line 201). -/
def addedMsg (name : String) : String :=
  "Successfully added new contact " ++ name ++ " to outreach list."

/-- The `for contact in context.context.outreach_list` loop of
`update_outreach_contact_in_context` (main.py lines 187-201): the first
contact whose `email` equals the argument is updated in place (status and
`last_contact_date`) and the loop returns; if no contact matches, a new
contact is appended at the end. -/
def upsertList (l : List OutreachContact) (name email : String) (status : Status)
    (now : Int) : List OutreachContact × String :=
  match l with
  | [] => ([OutreachContact.mk name email status now], addedMsg name)
  | c :: rest =>
      if c.email = email then
        ({ c with status := status, last_contact_date := now } :: rest,
         updatedMsg name status)
      else
        let r := upsertList rest name email status now
        (c :: r.1, r.2)

/-- `update_outreach_contact_in_context` (main.py lines 178-201), with
`datetime.now()` passed in as `now`. -/
def update_outreach_contact_in_context (ctx : EmailAgentContext) (name email : String)
    (status : Status) (now : Int) : EmailAgentContext × String :=
  let r := upsertList ctx.outreach_list name email status now
  ({ ctx with outreach_list := r.1 }, r.2)

/-- `add_medical_summary_to_context` (main.py lines 117-139), with
`datetime.now()` passed in as `now`. -/
def add_medical_summary_to_context (ctx : EmailAgentContext)
    (source_email_subject summary trend : String) (now : Int) :
    EmailAgentContext × String :=
  ({ ctx with medical_summaries :=
        ctx.medical_summaries ++
          [MedicalNewsSummary.mk source_email_subject summary trend now] },
   "Successfully added medical summary to context.")

/-- Rendering of `datetime.now().date()` used in report headers.  The
calendar formatting is a Python library detail no claim depends on; it is
abstracted as the day number of the timestamp. -/
def dateStr (now : Int) : String := toString (now.fdiv 86400)

/-- `(datetime.now() - contact.last_contact_date).days` (main.py line 225):
`timedelta.days` is floor division of the elapsed seconds by 86400. -/
def daysSince (last now : Int) : Int := (now - last).fdiv 86400

/-- `"-" * len(header)` (main.py lines 218 and 264). -/
def divider (header : String) : String := String.mk (List.replicate header.length '-')

/-- One step of the `status_counts` accumulation (main.py line 224):
`status_counts[contact.status] = status_counts.get(contact.status, 0) + 1`
on an insertion-ordered dict modelled as an association list. -/
def bumpCount (counts : List (Status × Nat)) (s : Status) : List (Status × Nat) :=
  match counts with
  | [] => [(s, 1)]
  | (t, n) :: rest =>
      if t = s then (t, n + 1) :: rest else (t, n) :: bumpCount rest s

/-- The `status_counts` dict after the loop over the outreach list
(main.py lines 222-224). -/
def statusCounts (l : List OutreachContact) : List (Status × Nat) :=
  l.foldl (fun counts c => bumpCount counts c.status) []

/-- The per-contact bullet line (main.py lines 226-228). -/
def contactLine (now : Int) (c : OutreachContact) : String :=
  "• " ++ c.name ++ " (" ++ c.email ++ ") – " ++ statusTitle c.status ++ " – " ++
    toString (daysSince c.last_contact_date now) ++ " days since last contact"

/-- The summary section lines (main.py lines 231-233), one per
`status_counts` entry in dict (insertion) order. -/
def weeklySummaryLines (l : List OutreachContact) : List String :=
  (statusCounts l).map (fun p => "  - " ++ statusTitle p.1 ++ ": " ++ toString p.2)

/-- `unresponsive = [c for c in context.context.outreach_list if c.status == "unresponsive"]`
(main.py line 236). -/
def unresponsiveContacts (l : List OutreachContact) : List OutreachContact :=
  l.filter (fun c => c.status = Status.unresponsive)

/-- The "Unresponsive Suppliers" section lines (main.py lines 236-240):
header plus one bullet per unresponsive contact, or nothing when the
filtered list is empty. -/
def unresponsiveSection (l : List OutreachContact) : List String :=
  let u := unresponsiveContacts l
  if u.isEmpty then []
  else "\nUnresponsive Suppliers:" ::
    u.map (fun c => "  • " ++ c.name ++ " (" ++ c.email ++ ")")

/-- The header of the non-empty weekly report (main.py line 217). -/
def weeklyHeader (now : Int) : String :=
  "Weekly Supplier Outreach Report (" ++ dateStr now ++ ")"

/-- The full `lines` list of the non-empty branch of
`generate_weekly_supplier_report` (main.py lines 217-240). -/
def weeklyReportLines (l : List OutreachContact) (now : Int) : List String :=
  [weeklyHeader now, divider (weeklyHeader now)] ++
    l.map (contactLine now) ++ ["\nSummary:"] ++ weeklySummaryLines l ++
    unresponsiveSection l

/-- `generate_weekly_supplier_report` (main.py lines 207-246): builds the
report text and appends it to `context.weekly_report`. -/
def generate_weekly_supplier_report (ctx : EmailAgentContext) (now : Int) :
    EmailAgentContext × String :=
  let report :=
    if ctx.outreach_list.isEmpty then
      "Weekly Supplier Outreach Report (" ++ dateStr now ++
        "):\n\nNo supplier outreach activity this week."
    else
      String.intercalate "\n" (weeklyReportLines ctx.outreach_list now)
  ({ ctx with weekly_report := ctx.weekly_report ++ [report] }, report)

/-- `recent_summaries` (main.py lines 254-256): the medical summaries whose
`date` is at or after `cutoff = datetime.now() - timedelta(days=14)`. -/
def recentSummaries (ctx : EmailAgentContext) (now : Int) : List MedicalNewsSummary :=
  ctx.medical_summaries.filter (fun s => now - 14 * 86400 ≤ s.date)

/-- One step of the `trend_groups` accumulation (main.py line 270):
`trend_groups.setdefault(summary.trend, []).append(summary)` on an
insertion-ordered dict modelled as an association list. -/
def addToGroups (gs : List (String × List MedicalNewsSummary))
    (s : MedicalNewsSummary) : List (String × List MedicalNewsSummary) :=
  match gs with
  | [] => [(s.trend, [s])]
  | (t, items) :: rest =>
      if t = s.trend then (t, items ++ [s]) :: rest
      else (t, items) :: addToGroups rest s

/-- The `trend_groups` dict after the loop over the filtered summaries
(main.py lines 268-270). -/
def trendGroups (l : List MedicalNewsSummary) :
    List (String × List MedicalNewsSummary) :=
  l.foldl addToGroups []

/-- The per-group lines of the trend report (main.py lines 272-275): a
header line with the trend and item count, then one bullet per item. -/
def biweeklyGroupLines (gs : List (String × List MedicalNewsSummary)) : List String :=
  (gs.map (fun p =>
    ("\nTrend: " ++ p.1 ++ " – " ++ toString p.2.length ++ " article(s)") ::
      p.2.map (fun i => "  • " ++ i.source_email_subject ++ ": " ++ i.summary))).flatten

/-- The header of the non-empty trend report (main.py line 263). -/
def biweeklyHeader (now : Int) : String :=
  "Bi-Weekly Medical Trends Report (" ++ dateStr now ++ ")"

/-- `generate_biweekly_medical_trend_report` (main.py lines 248-281): filters
to the trailing 14 days, groups by trend, builds the report text and appends
it to `context.bi_weekly_report`. -/
def generate_biweekly_medical_trend_report (ctx : EmailAgentContext) (now : Int) :
    EmailAgentContext × String :=
  let recent := recentSummaries ctx now
  let report :=
    if recent.isEmpty then
      "Bi-Weekly Medical Trends Report (" ++ dateStr now ++
        "):\n\nNo medical news summaries recorded in the last 14 days."
    else
      String.intercalate "\n"
        ([biweeklyHeader now, divider (biweeklyHeader now)] ++
          biweeklyGroupLines (trendGroups recent))
  ({ ctx with bi_weekly_report := ctx.bi_weekly_report ++ [report] }, report)

/-- The email dict built for each fetched message (main.py lines 82-86). -/
structure EmailDict where
  sender : String
  subject : String
  body : String
deriving DecidableEq

/-- A raw IMAP message as `read_yahoo_emails` consumes it: `msg.from_`,
`msg.subject`, `msg.text`, `msg.html`. -/
structure MailMessage where
  from_ : String
  subject : String
  text : String
  html : String
deriving DecidableEq

/-- `msg.text or msg.html` (main.py line 85): Python `or` yields the left
operand when it is truthy (a non-empty string), otherwise the right. -/
def msgBody (m : MailMessage) : String := if m.text.isEmpty then m.html else m.text

/-- The outcome of the `MailBox(...).login(...)` / `mailbox.fetch(...)` block
(main.py lines 79-86): either the fetched messages, or an exception whose
text the `except` clause interpolates. -/
inductive FetchOutcome where
  | ok (msgs : List MailMessage)
  | failure (e : String)
deriving DecidableEq

/-- Python truthiness test `not email_address or not password` on an
`os.getenv` result: `None` (unset) and the empty string are both falsy. -/
def credMissing : Option String → Bool
  | none => true
  | some s => s.isEmpty

/-- `read_yahoo_emails` (main.py lines 66-89): returns the list of email
dicts on success, and an error string (the Python `list[dict] | str` union
is a `Sum` with `inl` the string side) when credentials are missing or the
connection/fetch raises. -/
def read_yahoo_emails (email_address password : Option String)
    (fetch : FetchOutcome) : Sum String (List EmailDict) :=
  if credMissing email_address || credMissing password then
    Sum.inl "Error: YAHOO_EMAIL and YAHOO_PASSWORD environment variables are not set."
  else
    match fetch with
    | FetchOutcome.ok msgs =>
        Sum.inr (msgs.map (fun m => EmailDict.mk m.from_ m.subject (msgBody m)))
    | FetchOutcome.failure e =>
        Sum.inl ("Error connecting to Yahoo IMAP or fetching emails: " ++ e)

/-- The early-return logic of `process_yahoo_emails` (main.py lines 372-380):
whether the per-email processing loop runs given the value returned by
`read_yahoo_emails`.  On a string result the caller prints and returns
(skips the phase); on an empty list it also returns. -/
def mailPhaseRuns : Sum String (List EmailDict) → Bool
  | Sum.inl _ => false
  | Sum.inr msgs => !msgs.isEmpty

/-- String `sub` occurs as a contiguous substring of `msg` (infix of the
underlying character lists). -/
def mentions (msg sub : String) : Prop := sub.data <:+: msg.data

/-- Pairwise distinctness of the email attributes of the outreach list. -/
def emailsNodup (ctx : EmailAgentContext) : Prop :=
  (ctx.outreach_list.map (fun c => c.email)).Nodup

theorem upsertList_no_match (l : List OutreachContact) (name email : String)
    (status : Status) (now : Int) (h : ∀ c ∈ l, c.email ≠ email) :
    upsertList l name email status now =
      (l ++ [OutreachContact.mk name email status now], addedMsg name) := by
  induction l with
  | nil => rfl
  | cons c rest ih =>
    have hc : c.email ≠ email := h c (List.mem_cons_self c rest)
    have ih' := ih (fun d hd => h d (List.mem_cons_of_mem c hd))
    simp [upsertList, hc, ih']

theorem upsertList_match (l : List OutreachContact) (name email : String)
    (status : Status) (now : Int) (h : ∃ c ∈ l, c.email = email) :
    ∃ l1 c l2, l = l1 ++ c :: l2 ∧ (∀ d ∈ l1, d.email ≠ email) ∧ c.email = email ∧
      upsertList l name email status now =
        (l1 ++ OutreachContact.mk c.name c.email status now :: l2,
         updatedMsg name status) := by
  induction l with
  | nil => simp at h
  | cons a rest ih =>
    by_cases ha : a.email = email
    · refine ⟨[], a, rest, rfl, by simp, ha, ?_⟩
      simp [upsertList, ha]
    · have h' : ∃ c ∈ rest, c.email = email := by
        rcases h with ⟨c, hc, he⟩
        rcases List.mem_cons.mp hc with rfl | hc'
        · exact absurd he ha
        · exact ⟨c, hc', he⟩
      rcases ih h' with ⟨l1, c, l2, heq, hl1, hce, hres⟩
      refine ⟨a :: l1, c, l2, by rw [heq]; rfl, ?_, hce, ?_⟩
      · intro d hd
        rcases List.mem_cons.mp hd with rfl | hd'
        · exact ha
        · exact hl1 d hd'
      · simp [upsertList, ha, hres]

/-- C1: upserting with a new email appends exactly one record carrying the
given name, email, status and current timestamp; upserting an existing email
leaves the list length unchanged and updates (in place) only the first
record whose email matches, resetting its status and last contact date. -/
theorem C1_upsert_behavior (ctx : EmailAgentContext) (name email : String)
    (status : Status) (now : Int) :
    ((∀ c ∈ ctx.outreach_list, c.email ≠ email) →
      (update_outreach_contact_in_context ctx name email status now).1.outreach_list =
        ctx.outreach_list ++ [OutreachContact.mk name email status now]) ∧
    ((∃ c ∈ ctx.outreach_list, c.email = email) →
      ∃ l1 c l2, ctx.outreach_list = l1 ++ c :: l2 ∧
        (∀ d ∈ l1, d.email ≠ email) ∧ c.email = email ∧
        (update_outreach_contact_in_context ctx name email status now).1.outreach_list =
          l1 ++ OutreachContact.mk c.name c.email status now :: l2 ∧
        (update_outreach_contact_in_context ctx name email status now).1.outreach_list.length =
          ctx.outreach_list.length) := by
  constructor
  · intro h
    simp [update_outreach_contact_in_context,
      upsertList_no_match ctx.outreach_list name email status now h]
  · intro h
    rcases upsertList_match ctx.outreach_list name email status now h with
      ⟨l1, c, l2, heq, hl1, hce, hres⟩
    have h1 : (update_outreach_contact_in_context ctx name email status now).1.outreach_list =
        l1 ++ OutreachContact.mk c.name c.email status now :: l2 := by
      simp [update_outreach_contact_in_context, hres]
    refine ⟨l1, c, l2, heq, hl1, hce, h1, ?_⟩
    rw [h1, heq]
    simp

/-- Witness for C1: on the empty context, the upsert produces exactly the
singleton outreach list with the supplied fields. -/
theorem C1_upsert_behavior_witness :
    (update_outreach_contact_in_context (EmailAgentContext.mk [] [] [] [])
        "Acme" "a@x.com" Status.initial_sent 5).1.outreach_list =
      [OutreachContact.mk "Acme" "a@x.com" Status.initial_sent 5] := by
  have h := (C1_upsert_behavior (EmailAgentContext.mk [] [] [] [])
    "Acme" "a@x.com" Status.initial_sent 5).1 (by simp)
  simpa using h

/-- C10: when the email matches an existing record, the stored record keeps
its old name (only status and last contact date change), while the returned
confirmation string reports the newly supplied name. -/
theorem C10_update_keeps_stored_name (ctx : EmailAgentContext) (name email : String)
    (status : Status) (now : Int) (h : ∃ c ∈ ctx.outreach_list, c.email = email) :
    ∃ l1 c l2, ctx.outreach_list = l1 ++ c :: l2 ∧ (∀ d ∈ l1, d.email ≠ email) ∧
      c.email = email ∧
      (update_outreach_contact_in_context ctx name email status now).1.outreach_list =
        l1 ++ OutreachContact.mk c.name c.email status now :: l2 ∧
      (update_outreach_contact_in_context ctx name email status now).2 =
        "Successfully updated contact " ++ name ++ " with status " ++
          statusKey status ++ "." := by
  rcases upsertList_match ctx.outreach_list name email status now h with
    ⟨l1, c, l2, heq, hl1, hce, hres⟩
  refine ⟨l1, c, l2, heq, hl1, hce, ?_, ?_⟩
  · simp [update_outreach_contact_in_context, hres]
  · simp [update_outreach_contact_in_context, hres, updatedMsg]

/-- Witness for C10: updating the stored contact "Old" under a different
supplied name "New" keeps "Old" in the record but reports "New". -/
theorem C10_update_keeps_stored_name_witness :
    ∃ l1 c l2,
      ([OutreachContact.mk "Old" "a@x.com" Status.initial_sent 0] :
          List OutreachContact) = l1 ++ c :: l2 ∧
      (∀ d ∈ l1, d.email ≠ "a@x.com") ∧ c.email = "a@x.com" ∧
      (update_outreach_contact_in_context
          (EmailAgentContext.mk [OutreachContact.mk "Old" "a@x.com" Status.initial_sent 0]
            [] [] [])
          "New" "a@x.com" Status.replied 7).1.outreach_list =
        l1 ++ OutreachContact.mk c.name c.email Status.replied 7 :: l2 ∧
      (update_outreach_contact_in_context
          (EmailAgentContext.mk [OutreachContact.mk "Old" "a@x.com" Status.initial_sent 0]
            [] [] [])
          "New" "a@x.com" Status.replied 7).2 =
        "Successfully updated contact " ++ "New" ++ " with status " ++
          statusKey Status.replied ++ "." :=
  C10_update_keeps_stored_name
    (EmailAgentContext.mk [OutreachContact.mk "Old" "a@x.com" Status.initial_sent 0] [] [] [])
    "New" "a@x.com" Status.replied 7
    ⟨OutreachContact.mk "Old" "a@x.com" Status.initial_sent 0, by simp, rfl⟩

theorem mentions_middle (a b c : String) : mentions (a ++ b ++ c) b := by
  have hd : (a ++ b ++ c).data = a.data ++ b.data ++ c.data := by
    simp [String.data_append]
  unfold mentions
  rw [hd]
  exact List.infix_append a.data b.data c.data

/-- C8 counterexample: upserting a brand-new email with status `replied`
returns "Successfully added new contact Acme to outreach list.", a string
that does not mention the assigned status at all. -/
theorem C8_counterexample :
    ¬ mentions
      (update_outreach_contact_in_context (EmailAgentContext.mk [] [] [] [])
          "Acme" "a@x.com" Status.replied 0).2
      (statusKey Status.replied) := by
  unfold mentions
  decide

/-- C8 amended: the update branch's confirmation names both the contact and
the new status; the append branch's confirmation names the contact but does
not include the assigned status. -/
theorem C8_confirmation_amended (ctx : EmailAgentContext) (name email : String)
    (status : Status) (now : Int) :
    ((∃ c ∈ ctx.outreach_list, c.email = email) →
      mentions (update_outreach_contact_in_context ctx name email status now).2 name ∧
      mentions (update_outreach_contact_in_context ctx name email status now).2
        (statusKey status)) ∧
    ((∀ c ∈ ctx.outreach_list, c.email ≠ email) →
      (update_outreach_contact_in_context ctx name email status now).2 = addedMsg name ∧
      mentions (update_outreach_contact_in_context ctx name email status now).2 name) := by
  constructor
  · intro h
    rcases upsertList_match ctx.outreach_list name email status now h with
      ⟨l1, c, l2, heq, hl1, hce, hres⟩
    have h2 : (update_outreach_contact_in_context ctx name email status now).2 =
        updatedMsg name status := by
      simp [update_outreach_contact_in_context, hres]
    rw [h2]
    constructor
    · have := mentions_middle "Successfully updated contact " name
        (" with status " ++ statusKey status ++ ".")
      unfold updatedMsg
      unfold mentions at this ⊢
      simpa [String.data_append] using this
    · have := mentions_middle ("Successfully updated contact " ++ name ++ " with status ")
        (statusKey status) "."
      unfold updatedMsg
      unfold mentions at this ⊢
      simpa [String.data_append] using this
  · intro h
    have h2 : (update_outreach_contact_in_context ctx name email status now).2 =
        addedMsg name := by
      simp [update_outreach_contact_in_context,
        upsertList_no_match ctx.outreach_list name email status now h]
    refine ⟨h2, ?_⟩
    rw [h2]
    have := mentions_middle "Successfully added new contact " name " to outreach list."
    unfold addedMsg
    unfold mentions at this ⊢
    simpa [String.data_append] using this

/-- Witness for C8's amended claim: both branches exercised concretely. -/
theorem C8_confirmation_amended_witness :
    mentions
      (update_outreach_contact_in_context
          (EmailAgentContext.mk [OutreachContact.mk "Old" "a@x.com" Status.initial_sent 0]
            [] [] [])
          "Acme" "a@x.com" Status.replied 5).2
      (statusKey Status.replied) ∧
    mentions
      (update_outreach_contact_in_context (EmailAgentContext.mk [] [] [] [])
          "Acme" "b@x.com" Status.initial_sent 5).2
      "Acme" := by
  constructor
  · exact ((C8_confirmation_amended
      (EmailAgentContext.mk [OutreachContact.mk "Old" "a@x.com" Status.initial_sent 0] [] [] [])
      "Acme" "a@x.com" Status.replied 5).1
      ⟨OutreachContact.mk "Old" "a@x.com" Status.initial_sent 0, by simp, rfl⟩).2
  · exact ((C8_confirmation_amended (EmailAgentContext.mk [] [] [] [])
      "Acme" "b@x.com" Status.initial_sent 5).2 (by simp)).2

theorem upsertList_emails_nodup (l : List OutreachContact) (name email : String)
    (status : Status) (now : Int) (h : (l.map (fun c => c.email)).Nodup) :
    ((upsertList l name email status now).1.map (fun c => c.email)).Nodup := by
  by_cases hm : ∃ c ∈ l, c.email = email
  · rcases upsertList_match l name email status now hm with ⟨l1, c, l2, heq, hl1, hce, hres⟩
    have h1 : (upsertList l name email status now).1 =
        l1 ++ OutreachContact.mk c.name c.email status now :: l2 := by
      rw [hres]
    rw [h1]
    have h2 : ((l1 ++ OutreachContact.mk c.name c.email status now :: l2).map
        (fun c => c.email)) = l.map (fun c => c.email) := by
      rw [heq]
      simp
    rw [h2]
    exact h
  · push_neg at hm
    rw [upsertList_no_match l name email status now hm]
    simp only [List.map_append, List.map_cons, List.map_nil, List.nodup_append]
    refine ⟨h, by simp, ?_⟩
    intro a ha hb
    simp only [List.mem_singleton] at hb
    rcases List.mem_map.mp ha with ⟨d, hd, he⟩
    exact hm d hd (by rw [he, hb])

/-- C2: if all records of the outreach list have pairwise distinct emails,
then after each of the four core operations (contact upsert, medical-summary
add, weekly report, bi-weekly report) the emails are still pairwise
distinct. -/
theorem C2_email_uniqueness_invariant (ctx : EmailAgentContext)
    (name email subj summ trend : String) (status : Status) (now : Int)
    (h : emailsNodup ctx) :
    emailsNodup (update_outreach_contact_in_context ctx name email status now).1 ∧
    emailsNodup (add_medical_summary_to_context ctx subj summ trend now).1 ∧
    emailsNodup (generate_weekly_supplier_report ctx now).1 ∧
    emailsNodup (generate_biweekly_medical_trend_report ctx now).1 :=
  ⟨upsertList_emails_nodup ctx.outreach_list name email status now h, h, h, h⟩

/-- Witness for C2 at a two-contact context with distinct emails. -/
theorem C2_email_uniqueness_invariant_witness :
    emailsNodup (update_outreach_contact_in_context
      (EmailAgentContext.mk
        [OutreachContact.mk "A" "a@x.com" Status.initial_sent 0,
         OutreachContact.mk "B" "b@x.com" Status.replied 1] [] [] [])
      "C" "c@x.com" Status.unresponsive 2).1 :=
  (C2_email_uniqueness_invariant
    (EmailAgentContext.mk
      [OutreachContact.mk "A" "a@x.com" Status.initial_sent 0,
       OutreachContact.mk "B" "b@x.com" Status.replied 1] [] [] [])
    "C" "c@x.com" "s" "s" "t" Status.unresponsive 2 (by unfold emailsNodup; decide)).1

/-- C4: one call to the weekly report generator appends exactly one string —
the returned report text — to `weekly_report`, for every context (empty or
non-empty outreach list alike). -/
theorem C4_weekly_report_appends_one (ctx : EmailAgentContext) (now : Int) :
    (generate_weekly_supplier_report ctx now).1.weekly_report =
      ctx.weekly_report ++ [(generate_weekly_supplier_report ctx now).2] := rfl

/-- C5: a medical summary is kept by the trend report's window filter exactly
when it is in the context and its timestamp is at most 14 days (14 * 86400
seconds) before the generation time; the boundary is inclusive. -/
theorem C5_trend_window (ctx : EmailAgentContext) (now : Int) (s : MedicalNewsSummary) :
    s ∈ recentSummaries ctx now ↔
      s ∈ ctx.medical_summaries ∧ now - s.date ≤ 14 * 86400 := by
  unfold recentSummaries
  rw [List.mem_filter]
  constructor
  · rintro ⟨hmem, hp⟩
    refine ⟨hmem, ?_⟩
    have := of_decide_eq_true hp
    omega
  · rintro ⟨hmem, hle⟩
    refine ⟨hmem, decide_eq_true ?_⟩
    omega

/-- C9: missing or empty credentials, and any connection/fetch failure, make
the mailbox reader return the error-string side of its union result —
distinguished by construction from the message-list side — and the caller's
early-return logic then skips the mail-processing phase. -/
theorem C9_mail_failure_nonfatal (email_address password : Option String)
    (fetch : FetchOutcome)
    (h : credMissing email_address = true ∨ credMissing password = true ∨
      ∃ e, fetch = FetchOutcome.failure e) :
    (∃ s, read_yahoo_emails email_address password fetch = Sum.inl s) ∧
    mailPhaseRuns (read_yahoo_emails email_address password fetch) = false := by
  have hs : ∃ s, read_yahoo_emails email_address password fetch = Sum.inl s := by
    unfold read_yahoo_emails
    rcases h with h1 | h2 | ⟨e, he⟩
    · simp [h1]
    · simp [h2]
    · by_cases hc : (credMissing email_address || credMissing password) = true
      · simp [hc]
      · simp only [hc, if_false, he]
        exact ⟨_, rfl⟩
  rcases hs with ⟨s, hs⟩
  refine ⟨⟨s, hs⟩, ?_⟩
  rw [hs]
  rfl

/-- Witness for C9: with no YAHOO_EMAIL set, the reader returns an error
string and the processing phase is skipped. -/
theorem C9_mail_failure_nonfatal_witness :
    (∃ s, read_yahoo_emails none (some "pw") (FetchOutcome.ok []) = Sum.inl s) ∧
    mailPhaseRuns (read_yahoo_emails none (some "pw") (FetchOutcome.ok [])) = false :=
  C9_mail_failure_nonfatal none (some "pw") (FetchOutcome.ok []) (Or.inl rfl)

/-- The order in which values are first seen in a list: the spec-side
reading of "preserving first-seen ordering" for insertion-ordered dict
keys, to be compared with the key order the code produces. -/
def firstSeen {α : Type} [DecidableEq α] (l : List α) : List α :=
  l.foldl (fun acc x => if x ∈ acc then acc else acc ++ [x]) []

theorem firstSeen_foldl_mem {α : Type} [DecidableEq α] (l : List α) :
    ∀ (acc : List α) (x : α),
      (x ∈ l.foldl (fun a y => if y ∈ a then a else a ++ [y]) acc ↔
        x ∈ acc ∨ x ∈ l) := by
  induction l with
  | nil => intro acc x; simp
  | cons a rest ih =>
    intro acc x
    rw [List.foldl_cons, ih]
    by_cases ha : a ∈ acc
    · rw [if_pos ha]
      simp only [List.mem_cons]
      constructor
      · rintro (hx | hx)
        · exact Or.inl hx
        · exact Or.inr (Or.inr hx)
      · rintro (hx | hx | hx)
        · exact Or.inl hx
        · exact Or.inl (hx ▸ ha)
        · exact Or.inr hx
    · rw [if_neg ha]
      simp only [List.mem_append, List.mem_singleton, List.mem_cons]
      tauto

theorem firstSeen_mem {α : Type} [DecidableEq α] (l : List α) (x : α) :
    x ∈ firstSeen l ↔ x ∈ l := by
  unfold firstSeen
  rw [firstSeen_foldl_mem]
  simp

theorem firstSeen_foldl_nodup {α : Type} [DecidableEq α] (l : List α) :
    ∀ acc : List α, acc.Nodup →
      (l.foldl (fun a y => if y ∈ a then a else a ++ [y]) acc).Nodup := by
  induction l with
  | nil => intro acc h; simpa using h
  | cons a rest ih =>
    intro acc h
    rw [List.foldl_cons]
    by_cases ha : a ∈ acc
    · rw [if_pos ha]; exact ih acc h
    · rw [if_neg ha]
      refine ih _ ?_
      rw [List.nodup_append]
      refine ⟨h, by simp, ?_⟩
      intro x hx hx'
      simp only [List.mem_singleton] at hx'
      exact ha (hx' ▸ hx)

theorem firstSeen_nodup {α : Type} [DecidableEq α] (l : List α) :
    (firstSeen l).Nodup :=
  firstSeen_foldl_nodup l [] (by simp)

theorem firstSeen_append_singleton {α : Type} [DecidableEq α] (l : List α) (x : α) :
    firstSeen (l ++ [x]) =
      if x ∈ firstSeen l then firstSeen l else firstSeen l ++ [x] := by
  unfold firstSeen
  rw [List.foldl_append]
  rfl

theorem bumpCount_keys (counts : List (Status × Nat)) (s : Status) :
    (bumpCount counts s).map Prod.fst =
      if s ∈ counts.map Prod.fst then counts.map Prod.fst
      else counts.map Prod.fst ++ [s] := by
  induction counts with
  | nil => simp [bumpCount]
  | cons p rest ih =>
    obtain ⟨t, n⟩ := p
    by_cases ht : t = s
    · subst ht
      simp [bumpCount]
    · have hst : ¬ s = t := fun hh => ht hh.symm
      simp only [bumpCount, if_neg ht, List.map_cons, ih, List.mem_cons, hst, false_or]
      by_cases hs : s ∈ rest.map Prod.fst
      · simp [hs]
      · simp [hs]

theorem bumpCount_sum (counts : List (Status × Nat)) (s : Status) :
    ((bumpCount counts s).map Prod.snd).sum = (counts.map Prod.snd).sum + 1 := by
  induction counts with
  | nil => simp [bumpCount]
  | cons p rest ih =>
    obtain ⟨t, n⟩ := p
    by_cases ht : t = s
    · simp [bumpCount, ht]
      omega
    · simp [bumpCount, ht, ih]
      omega

theorem statusCounts_foldl_keys (l : List OutreachContact) :
    ∀ counts : List (Status × Nat),
      (l.foldl (fun cs c => bumpCount cs c.status) counts).map Prod.fst =
        l.foldl (fun a c => if c.status ∈ a then a else a ++ [c.status])
          (counts.map Prod.fst) := by
  induction l with
  | nil => intro counts; rfl
  | cons c rest ih =>
    intro counts
    rw [List.foldl_cons, List.foldl_cons, ih, bumpCount_keys]

theorem statusCounts_keys (l : List OutreachContact) :
    (statusCounts l).map Prod.fst = firstSeen (l.map (fun c => c.status)) := by
  unfold statusCounts firstSeen
  rw [statusCounts_foldl_keys, List.foldl_map]
  rfl

theorem statusCounts_foldl_sum (l : List OutreachContact) :
    ∀ counts : List (Status × Nat),
      ((l.foldl (fun cs c => bumpCount cs c.status) counts).map Prod.snd).sum =
        (counts.map Prod.snd).sum + l.length := by
  induction l with
  | nil => intro counts; simp
  | cons c rest ih =>
    intro counts
    rw [List.foldl_cons, ih, bumpCount_sum]
    simp
    omega

theorem statusCounts_sum (l : List OutreachContact) :
    ((statusCounts l).map Prod.snd).sum = l.length := by
  unfold statusCounts
  rw [statusCounts_foldl_sum]
  simp

/-- C3: for a non-empty outreach list, the weekly report's summary section
has one line per entry of `statusCounts`, whose keys are exactly the
distinct statuses present in the list in first-seen order (hence pairwise
distinct), and whose counts sum to the number of contacts. -/
theorem C3_weekly_summary_section (l : List OutreachContact) (_h : 1 ≤ l.length) :
    (statusCounts l).map Prod.fst = firstSeen (l.map (fun c => c.status)) ∧
    ((statusCounts l).map Prod.fst).Nodup ∧
    (∀ s : Status, s ∈ (statusCounts l).map Prod.fst ↔ s ∈ l.map (fun c => c.status)) ∧
    (weeklySummaryLines l).length = (firstSeen (l.map (fun c => c.status))).length ∧
    ((statusCounts l).map Prod.snd).sum = l.length := by
  refine ⟨statusCounts_keys l, ?_, ?_, ?_, statusCounts_sum l⟩
  · rw [statusCounts_keys]
    exact firstSeen_nodup _
  · intro s
    rw [statusCounts_keys, firstSeen_mem]
  · unfold weeklySummaryLines
    rw [← statusCounts_keys]
    simp

/-- Witness for C3 at a three-contact list with a repeated status. -/
theorem C3_weekly_summary_section_witness :
    1 ≤ ([OutreachContact.mk "A" "a@x.com" Status.initial_sent 0,
          OutreachContact.mk "B" "b@x.com" Status.replied 0,
          OutreachContact.mk "C" "c@x.com" Status.initial_sent 0] :
        List OutreachContact).length ∧
    ((statusCounts
        [OutreachContact.mk "A" "a@x.com" Status.initial_sent 0,
         OutreachContact.mk "B" "b@x.com" Status.replied 0,
         OutreachContact.mk "C" "c@x.com" Status.initial_sent 0]).map Prod.snd).sum =
      ([OutreachContact.mk "A" "a@x.com" Status.initial_sent 0,
        OutreachContact.mk "B" "b@x.com" Status.replied 0,
        OutreachContact.mk "C" "c@x.com" Status.initial_sent 0] :
        List OutreachContact).length :=
  ⟨by decide,
   (C3_weekly_summary_section
     [OutreachContact.mk "A" "a@x.com" Status.initial_sent 0,
      OutreachContact.mk "B" "b@x.com" Status.replied 0,
      OutreachContact.mk "C" "c@x.com" Status.initial_sent 0]
     (by decide)).2.2.2.2⟩

theorem addToGroups_cons (t : String) (items : List MedicalNewsSummary)
    (rest : List (String × List MedicalNewsSummary)) (s : MedicalNewsSummary) :
    addToGroups ((t, items) :: rest) s =
      if t = s.trend then (t, items ++ [s]) :: rest
      else (t, items) :: addToGroups rest s := rfl

theorem filter_trend_append_singleton_eq (l : List MedicalNewsSummary)
    (s : MedicalNewsSummary) :
    (l ++ [s]).filter (fun x => x.trend = s.trend) =
      l.filter (fun x => x.trend = s.trend) ++ [s] := by
  rw [List.filter_append]
  simp

theorem filter_trend_append_singleton_ne (l : List MedicalNewsSummary)
    (s : MedicalNewsSummary) (t : String) (h : ¬ s.trend = t) :
    (l ++ [s]).filter (fun x => x.trend = t) =
      l.filter (fun x => x.trend = t) := by
  rw [List.filter_append]
  simp [h]

theorem addToGroups_map_filter_mem (l : List MedicalNewsSummary)
    (s : MedicalNewsSummary) :
    ∀ ks : List String, ks.Nodup → s.trend ∈ ks →
      addToGroups (ks.map (fun t => (t, l.filter (fun x => x.trend = t)))) s =
        ks.map (fun t => (t, (l ++ [s]).filter (fun x => x.trend = t))) := by
  intro ks
  induction ks with
  | nil => intro _ hmem; simp at hmem
  | cons t ks ih =>
    intro hnd hmem
    rcases List.nodup_cons.mp hnd with ⟨htk, hndk⟩
    rw [List.map_cons, List.map_cons, addToGroups_cons]
    by_cases ht : t = s.trend
    · subst ht
      rw [if_pos rfl, filter_trend_append_singleton_eq]
      have htl : ks.map (fun u => (u, l.filter (fun x => x.trend = u))) =
          ks.map (fun u => (u, (l ++ [s]).filter (fun x => x.trend = u))) := by
        refine List.map_congr_left ?_
        intro u hu
        have hut : ¬ s.trend = u := fun hh => htk (hh ▸ hu)
        rw [filter_trend_append_singleton_ne l s u hut]
      rw [htl]
    · have hmem' : s.trend ∈ ks := by
        rcases List.mem_cons.mp hmem with hh | hh
        · exact absurd hh.symm ht
        · exact hh
      have hts : ¬ s.trend = t := fun hh => ht hh.symm
      rw [if_neg ht, ih hndk hmem', filter_trend_append_singleton_ne l s t hts]

theorem addToGroups_map_filter_not_mem (l : List MedicalNewsSummary)
    (s : MedicalNewsSummary) :
    ∀ ks : List String, s.trend ∉ ks →
      addToGroups (ks.map (fun t => (t, l.filter (fun x => x.trend = t)))) s =
        ks.map (fun t => (t, (l ++ [s]).filter (fun x => x.trend = t))) ++
          [(s.trend, [s])] := by
  intro ks
  induction ks with
  | nil => intro _; simp [addToGroups]
  | cons t ks ih =>
    intro hmem
    have hts : ¬ s.trend = t := fun hh => hmem (hh ▸ List.mem_cons_self t ks)
    have ht : ¬ t = s.trend := fun hh => hts hh.symm
    have hmem' : s.trend ∉ ks := fun hh => hmem (List.mem_cons_of_mem t hh)
    rw [List.map_cons, List.map_cons, addToGroups_cons, if_neg ht, ih hmem',
      filter_trend_append_singleton_ne l s t hts, List.cons_append]

theorem trendGroups_characterization (l : List MedicalNewsSummary) :
    trendGroups l =
      (firstSeen (l.map (fun s => s.trend))).map
        (fun t => (t, l.filter (fun x => x.trend = t))) := by
  induction l using List.reverseRecOn with
  | nil => rfl
  | append_singleton l s ih =>
    unfold trendGroups at ih ⊢
    rw [List.foldl_append, List.foldl_cons, List.foldl_nil, ih, List.map_append,
      List.map_singleton, firstSeen_append_singleton]
    by_cases hmem : s.trend ∈ firstSeen (l.map (fun x => x.trend))
    · rw [if_pos hmem]
      exact addToGroups_map_filter_mem l s _ (firstSeen_nodup _) hmem
    · rw [if_neg hmem, List.map_append, List.map_singleton]
      rw [addToGroups_map_filter_not_mem l s _ hmem]
      have hfil : (l ++ [s]).filter (fun x => x.trend = s.trend) = [s] := by
        rw [List.filter_append]
        have h0 : l.filter (fun x => x.trend = s.trend) = [] := by
          rw [List.filter_eq_nil_iff]
          intro a ha hp
          have hat : a.trend = s.trend := of_decide_eq_true hp
          have : s.trend ∈ l.map (fun x => x.trend) := by
            rw [← hat]
            exact List.mem_map_of_mem _ ha
          exact hmem ((firstSeen_mem _ _).mpr this)
        rw [h0]
        simp
      rw [hfil]

/-- C6: the bi-weekly report's trend groups over the window-filtered
summaries are exactly one group per distinct trend label — compared with
exact, case-sensitive string equality — in first-encountered order, each
group holding, in original insertion order, precisely the filtered
summaries whose trend equals that label. -/
theorem C6_trend_grouping (ctx : EmailAgentContext) (now : Int) :
    trendGroups (recentSummaries ctx now) =
      (firstSeen ((recentSummaries ctx now).map (fun s => s.trend))).map
        (fun t => (t, (recentSummaries ctx now).filter (fun x => x.trend = t))) ∧
    ((trendGroups (recentSummaries ctx now)).map Prod.fst).Nodup := by
  refine ⟨trendGroups_characterization _, ?_⟩
  have hk : (trendGroups (recentSummaries ctx now)).map Prod.fst =
      firstSeen ((recentSummaries ctx now).map (fun s => s.trend)) := by
    rw [trendGroups_characterization, List.map_map]
    exact List.map_id _
  rw [hk]
  exact firstSeen_nodup _

theorem isEmpty_false_of_ne_nil {α : Type} {l : List α} (h : l ≠ []) :
    l.isEmpty = false := by
  cases l with
  | nil => exact absurd rfl h
  | cons a as => rfl

theorem weeklyHeader_ne_unresp (now : Int) :
    weeklyHeader now ≠ "\nUnresponsive Suppliers:" := by
  intro heq
  have hd := congrArg String.data heq
  simp [weeklyHeader, String.data_append] at hd

theorem divider_ne_unresp (h : String) :
    divider h ≠ "\nUnresponsive Suppliers:" := by
  intro heq
  have hd := congrArg String.data heq
  simp only [divider] at hd
  have hh := congrArg List.head? hd
  rcases hn : h.length with _ | n
  · rw [hn] at hh
    simp at hh
  · rw [hn] at hh
    simp [List.replicate_succ] at hh

theorem contactLine_ne_unresp (now : Int) (c : OutreachContact) :
    contactLine now c ≠ "\nUnresponsive Suppliers:" := by
  intro heq
  have hd := congrArg String.data heq
  simp [contactLine, String.data_append] at hd

theorem unresp_not_mem_summaryLines (l : List OutreachContact) :
    "\nUnresponsive Suppliers:" ∉ weeklySummaryLines l := by
  intro hmem
  rcases List.mem_map.mp hmem with ⟨p, _, hpe⟩
  have hd := congrArg String.data hpe
  simp [String.data_append] at hd

/-- C7: for a non-empty outreach list, the "Unresponsive Suppliers" section
lists exactly the contacts whose status equals `unresponsive`, in list
order; when no contact has that status, the section is empty, its header
line occurs nowhere among the report's lines, and the report text is
assembled from the section-free lines alone. -/
theorem C7_unresponsive_suppliers (ctx : EmailAgentContext) (now : Int)
    (h : ctx.outreach_list ≠ []) :
    ((∃ c ∈ ctx.outreach_list, c.status = Status.unresponsive) →
      unresponsiveSection ctx.outreach_list =
        "\nUnresponsive Suppliers:" ::
          (ctx.outreach_list.filter (fun c => c.status = Status.unresponsive)).map
            (fun c => "  • " ++ c.name ++ " (" ++ c.email ++ ")")) ∧
    ((∀ c ∈ ctx.outreach_list, c.status ≠ Status.unresponsive) →
      unresponsiveSection ctx.outreach_list = [] ∧
      "\nUnresponsive Suppliers:" ∉ weeklyReportLines ctx.outreach_list now ∧
      (generate_weekly_supplier_report ctx now).2 =
        String.intercalate "\n"
          ([weeklyHeader now, divider (weeklyHeader now)] ++
            ctx.outreach_list.map (contactLine now) ++ ["\nSummary:"] ++
            weeklySummaryLines ctx.outreach_list)) := by
  constructor
  · rintro ⟨c, hc, hst⟩
    have hmem : c ∈ ctx.outreach_list.filter
        (fun c => c.status = Status.unresponsive) := by
      rw [List.mem_filter]
      exact ⟨hc, decide_eq_true hst⟩
    have hne : ctx.outreach_list.filter (fun c => c.status = Status.unresponsive) ≠ [] :=
      fun hnil => List.not_mem_nil c (hnil ▸ hmem)
    simp only [unresponsiveSection, unresponsiveContacts, isEmpty_false_of_ne_nil hne,
      Bool.false_eq_true, if_false]
  · intro hall
    have h0 : ctx.outreach_list.filter (fun c => c.status = Status.unresponsive) = [] := by
      rw [List.filter_eq_nil_iff]
      intro c hc hp
      exact hall c hc (of_decide_eq_true hp)
    have hsec : unresponsiveSection ctx.outreach_list = [] := by
      simp only [unresponsiveSection, unresponsiveContacts, h0]
      rfl
    refine ⟨hsec, ?_, ?_⟩
    · unfold weeklyReportLines
      rw [hsec, List.append_nil]
      intro hmem
      simp only [List.cons_append, List.singleton_append, List.mem_append,
        List.mem_cons, List.not_mem_nil, or_false, List.mem_map] at hmem
      rcases hmem with (hh | hh | ((hF | ⟨c, _, hh⟩) | hh) | hh)
      · exact weeklyHeader_ne_unresp now hh.symm
      · exact divider_ne_unresp (weeklyHeader now) hh.symm
      · exact hF
      · exact contactLine_ne_unresp now c hh
      · exact absurd hh (by decide)
      · exact unresp_not_mem_summaryLines ctx.outreach_list hh
    · have hE : ctx.outreach_list.isEmpty = false := isEmpty_false_of_ne_nil h
      simp only [generate_weekly_supplier_report, hE, Bool.false_eq_true, if_false]
      unfold weeklyReportLines
      rw [hsec, List.append_nil]

/-- Witness for C7: one unresponsive contact yields the section with exactly
that contact; a list with none yields no section and a header-free report. -/
theorem C7_unresponsive_suppliers_witness :
    unresponsiveSection
        [OutreachContact.mk "A" "a@x.com" Status.unresponsive 0,
         OutreachContact.mk "B" "b@x.com" Status.replied 0] =
      "\nUnresponsive Suppliers:" ::
        (([OutreachContact.mk "A" "a@x.com" Status.unresponsive 0,
           OutreachContact.mk "B" "b@x.com" Status.replied 0] :
            List OutreachContact).filter
          (fun c => c.status = Status.unresponsive)).map
          (fun c => "  • " ++ c.name ++ " (" ++ c.email ++ ")") ∧
    unresponsiveSection [OutreachContact.mk "B" "b@x.com" Status.replied 0] = [] := by
  constructor
  · exact (C7_unresponsive_suppliers
      (EmailAgentContext.mk
        [OutreachContact.mk "A" "a@x.com" Status.unresponsive 0,
         OutreachContact.mk "B" "b@x.com" Status.replied 0] [] [] []) 0
      (by simp)).1
      ⟨OutreachContact.mk "A" "a@x.com" Status.unresponsive 0, by simp, rfl⟩
  · exact ((C7_unresponsive_suppliers
      (EmailAgentContext.mk [OutreachContact.mk "B" "b@x.com" Status.replied 0] [] [] []) 0
      (by simp)).2 (by decide)).1

end EmailAgent
